import Mathlib

/-!
Shallow embedding of the rustybolts codec (`src/main.rs`): a per-turn
text-protocol decoder/encoder for a robot-arena game client.

Rust strings are Lean `String`s; `str::split(c)` is modelled by `split`
below (splitting a character list on a separator character, which for
single-character patterns agrees with Rust's semantics, including the
behaviour that splitting the empty string yields one empty token).
Rust's `parse::<uN>()` is modelled by `parseUInt` with the type's maximum
as an explicit bound; `format!("{}", n)` on an unsigned integer is
modelled by `natToString`, the canonical decimal rendering.  The Rust
error type is `Box<dyn Error>` built from `format!` messages, so errors
are modelled as the corresponding `String` messages; decode results are
`Except String α`.
-/

namespace RustyBolts

/-- Split a character list on a separator character, Rust-`split` style:
the empty list yields one empty token, and separators at the ends or
adjacent to each other yield empty tokens. -/
def splitChars (sep : Char) : List Char → List (List Char)
  | [] => [[]]
  | c :: cs =>
    if c = sep then
      [] :: splitChars sep cs
    else
      match splitChars sep cs with
      | [] => [[c]]
      | t :: ts => (c :: t) :: ts

/-- Interleave a separator character between token lists (Rust `join` with a
one-character separator, at the character level). -/
def joinChars (sep : Char) : List (List Char) → List Char
  | [] => []
  | [x] => x
  | x :: xs => x ++ sep :: joinChars sep xs

/-- Rust `s.split(sep)` collected to a vector of strings. -/
def split (sep : Char) (s : String) : List String :=
  (splitChars sep s.data).map String.mk

/-- Rust `Vec<String>::join(sep)` for a one-character separator. -/
def joinSep (sep : Char) (l : List String) : String :=
  ⟨joinChars sep (l.map String.data)⟩

/-- `char::to_digit(10)`: the numeric value of a decimal digit character. -/
def digitVal (c : Char) : Option Nat :=
  if c.isDigit then some (c.toNat - 48) else none

/-- `u8::MAX`. -/
def u8Max : Nat := 255

/-- `u32::MAX`. -/
def u32Max : Nat := 2 ^ 32 - 1

/-- `usize::MAX` (64-bit target). -/
def usizeMax : Nat := 2 ^ 64 - 1

/-- The digit loop of Rust's unsigned `from_str_radix` (radix 10): each
character must be a decimal digit, and the accumulated value must stay
within the target type's range. -/
def parseUIntLoop (max : Nat) : Nat → List Char → Except String Nat
  | v, [] => .ok v
  | v, c :: cs =>
    match digitVal c with
    | none => .error "invalid digit found in string"
    | some d =>
      if v * 10 + d ≤ max then parseUIntLoop max (v * 10 + d) cs
      else .error "number too large to fit in target type"

/-- Rust `str::parse::<uN>()` where `max` is `uN::MAX`: empty input is an
error, an optional leading `+` sign is allowed, then one or more decimal
digits whose value must fit in the target type. -/
def parseUInt (max : Nat) (s : String) : Except String Nat :=
  match s.data with
  | [] => .error "cannot parse integer from empty string"
  | c :: cs =>
    if c = '+' then
      if cs = [] then .error "invalid digit found in string"
      else parseUIntLoop max 0 cs
    else parseUIntLoop max 0 (c :: cs)

/-- The value accumulated by `parseUIntLoop` over a character list. -/
def loopVal (v : Nat) (cs : List Char) : Nat :=
  cs.foldl (fun v c => v * 10 + (digitVal c).getD 0) v

/-- The digit loop of decimal rendering: repeated division by 10,
prepending the digit characters, with explicit fuel so that the kernel can
evaluate it. -/
def natToCharsCore : Nat → Nat → List Char → List Char
  | 0, _, acc => acc
  | fuel + 1, n, acc =>
    let d := Nat.digitChar (n % 10)
    if n / 10 = 0 then d :: acc else natToCharsCore fuel (n / 10) (d :: acc)

/-- Canonical decimal rendering of an unsigned integer, most significant
digit first (`format!("{}", n)`). -/
def natToChars (n : Nat) : List Char :=
  natToCharsCore (n + 1) n []

/-- `format!("{}", n)` as a `String`. -/
def natToString (n : Nat) : String := ⟨natToChars n⟩

/-- `enum Team { Friendly, Enemy }`. -/
inductive Team where
  | friendly
  | enemy
deriving DecidableEq, Repr

/-- `enum Direction { Up, Down, Left, Right }`. -/
inductive Direction where
  | up
  | down
  | left
  | right
deriving DecidableEq, Repr

/-- `enum Action { Attack(Direction), Move(Direction), Defend, SelfDestruct }`. -/
inductive Action where
  | attack (d : Direction)
  | move (d : Direction)
  | defend
  | selfDestruct
deriving DecidableEq, Repr

/-- `impl Default for Action`: the default action is `Defend`. -/
def Action.default : Action := .defend

/-- `struct Position { x: usize, y: usize }`. -/
structure Position where
  x : Nat
  y : Nat
deriving DecidableEq, Repr

/-- `struct Bot { team, position, health: u8, action: Option<Action> }`. -/
structure Bot where
  team : Team
  position : Position
  health : Nat
  action : Option Action
deriving DecidableEq, Repr

/-- `struct Board(Vec<Bot>)`. -/
structure Board where
  bots : List Bot
deriving DecidableEq, Repr

/-- `struct Game { board, user_data, turn: (u32, u32), player_num: u8 }`. -/
structure Game where
  board : Board
  userData : String
  turn : Nat × Nat
  playerNum : Nat
deriving DecidableEq, Repr

/-- `impl FromStr for Position`: split on `:`, read the first two parts as
`usize`; the error messages are those of the Rust source. -/
def Position.decode (s : String) : Except String Position :=
  let parts := split ':' s
  match parts.get? 0, parts.get? 1 with
  | some xs, some ys =>
    match parseUInt usizeMax xs, parseUInt usizeMax ys with
    | .ok x, .ok y => .ok ⟨x, y⟩
    | _, _ =>
      .error ("Couldn't parse as usize: (\"" ++ xs ++ "\", \"" ++ ys ++ "\")")
  | _, _ => .error "Missing a position"

/-- The team field of `Bot`'s `FromStr`: `match splitter.next()` with
`Some("F")` → Friendly, `Some("E")` → Enemy, anything else an error. -/
def teamOf (parts : List String) : Except String Team :=
  match parts.get? 0 with
  | some t =>
    if t = "F" then .ok Team.friendly
    else if t = "E" then .ok Team.enemy
    else .error "Couldn't parse team"
  | none => .error "Couldn't parse team"

/-- The position field of `Bot`'s `FromStr`: the second `-`-separated
part, decoded as a `Position` (its error propagated by `?`). -/
def positionOf (parts : List String) : Except String Position :=
  match parts.get? 1 with
  | some p => Position.decode p
  | none => .error "No position"

/-- The health field of `Bot`'s `FromStr`: the third `-`-separated part,
parsed as `u8`. -/
def healthOf (parts : List String) : Except String Nat :=
  match parts.get? 2 with
  | some h => parseUInt u8Max h
  | none => .error "No health"

/-- `impl FromStr for Bot`: split on `-`; first part is the team marker
(`"F"`/`"E"`), second the position, third the health (`u8`); the decoded
bot's `action` is `none`. -/
def Bot.decode (s : String) : Except String Bot :=
  let parts := split '-' s
  teamOf parts >>= fun team =>
  positionOf parts >>= fun position =>
  healthOf parts >>= fun health =>
  .ok { team := team, position := position, health := health, action := none }

/-- `Iterator::collect::<Result<Vec<_>, _>>`: map a fallible function over
a list left to right, stopping at the first error. -/
def collectResults (f : α → Except ε β) : List α → Except ε (List β)
  | [] => .ok []
  | x :: xs =>
    f x >>= fun y =>
    collectResults f xs >>= fun ys =>
    .ok (y :: ys)

/-- `impl FromStr for Board`: split on `,` and decode every token as a
`Bot`, aborting on the first failure (`collect::<Result<_>>`). -/
def Board.decode (s : String) : Except String Board :=
  collectResults Bot.decode (split ',' s) >>= fun bots => .ok ⟨bots⟩

/-- `Game`'s `FromStr` segment match: the first three `#`-delimited
segments as (game data, map state, user data), or the whole-line parse
error when any of them is missing. -/
def gameSegments (s : String) (parts : List String) :
    Except String (String × String × String) :=
  match parts.get? 0, parts.get? 1, parts.get? 2 with
  | some g, some m, some u => .ok (g, m, u)
  | _, _, _ => .error ("Couldn't parse input: " ++ s)

/-- A game-data token of `Game`'s `FromStr`: the `i`-th comma-separated
token parsed as an unsigned integer bounded by `maxv`, or the
field-specific error `msg` when the token is missing. -/
def numAt (gd : List String) (i : Nat) (maxv : Nat) (msg : String) : Except String Nat :=
  match gd.get? i with
  | some t => parseUInt maxv t
  | none => .error msg

/-- `impl FromStr for Game`: split on `#`, take the first three segments as
(game data, map state, user data); parse the game data's first three
comma-separated tokens as current turn (`u32`), total turns (`u32`) and
player number (`u8`); decode the map state as a `Board`. -/
def Game.decode (s : String) : Except String Game :=
  let parts := split '#' s
  gameSegments s parts >>= fun gmu =>
  let gd := split ',' gmu.1
  numAt gd 0 u32Max "No numerator" >>= fun num =>
  numAt gd 1 u32Max "No denominator" >>= fun denom =>
  numAt gd 2 u8Max "No player num" >>= fun playerNum =>
  Board.decode gmu.2.1 >>= fun board =>
  .ok { board := board, userData := gmu.2.2, turn := (num, denom), playerNum := playerNum }

/-- `impl fmt::Display for Direction`: the canonical one-letter code. -/
def Direction.encode : Direction → String
  | .up => "U"
  | .down => "D"
  | .left => "L"
  | .right => "R"

/-- `impl fmt::Display for Action`. -/
def Action.encode : Action → String
  | .attack d => "A-" ++ d.encode
  | .move d => "M-" ++ d.encode
  | .defend => "D"
  | .selfDestruct => "S"

/-- `impl fmt::Display for Position`: `"x:y"`. -/
def Position.encode (p : Position) : String :=
  natToString p.x ++ ":" ++ natToString p.y

/-- The `action_str` of `Board`'s `Display`: the bot's action, or
`Action::default()` when unset. -/
def Bot.actionString (b : Bot) : String :=
  match b.action with
  | some a => a.encode
  | none => Action.default.encode

/-- The per-bot rendering used by `Board`'s `Display`:
`format!("{}-{}", bot.position, action_str)`. -/
def Bot.entry (b : Bot) : String :=
  b.position.encode ++ "-" ++ b.actionString

/-- `impl fmt::Display for Board`: render the friendly bots, in order, and
join with `,`. -/
def Board.encode (bd : Board) : String :=
  joinSep ',' ((bd.bots.filter (fun b => b.team == Team.friendly)).map Bot.entry)

/-- `impl fmt::Display for Game`: `"<board>#<user_data>"`. -/
def Game.encode (g : Game) : String :=
  g.board.encode ++ "#" ++ g.userData

/-- Modelled from the spec: the repository contains no decoder for
`Direction` (only the `Display` impl); §4.1 of the spec specifies
`decode(token)`: `"U"`/`"N"` → Up, `"D"`/`"S"` → Down, `"L"`/`"W"` → Left,
`"R"`/`"E"` → Right, anything else fails with `UnknownDirection` carrying
the token. -/
def Direction.decode (t : String) : Except String Direction :=
  if t = "U" ∨ t = "N" then .ok .up
  else if t = "D" ∨ t = "S" then .ok .down
  else if t = "L" ∨ t = "W" then .ok .left
  else if t = "R" ∨ t = "E" then .ok .right
  else .error ("Unknown direction: " ++ t)

example : Position.decode "13:12" = .ok ⟨13, 12⟩ := rfl
example : Position.decode "1:2:3" = .ok ⟨1, 2⟩ := rfl
example : Position.decode "13" = .error "Missing a position" := rfl
example : Bot.decode "F-13:12-20" = .ok ⟨.friendly, ⟨13, 12⟩, 20, none⟩ := rfl
example : Bot.decode "E-9:5-100" = .ok ⟨.enemy, ⟨9, 5⟩, 100, none⟩ := rfl
example : Bot.decode "F-1:2-3-extra" = .ok ⟨.friendly, ⟨1, 2⟩, 3, none⟩ := rfl
example : Bot.decode "F-12:6-xx" = .error "invalid digit found in string" := rfl
example : Bot.decode "F-12:6" = .error "No health" := rfl
example : Bot.decode "" = .error "Couldn't parse team" := rfl
example : Board.decode "E-9:5-100,F-9:12-90" =
    .ok ⟨[⟨.enemy, ⟨9, 5⟩, 100, none⟩, ⟨.friendly, ⟨9, 12⟩, 90, none⟩]⟩ := rfl
example : Game.decode "3,100,2#F-12:6-100,E-9:12-90#123" =
    .ok ⟨⟨[⟨.friendly, ⟨12, 6⟩, 100, none⟩, ⟨.enemy, ⟨9, 12⟩, 90, none⟩]⟩, "123", (3, 100), 2⟩ := by
  rfl
example : Action.encode (.move .up) = "M-U" := rfl
example : Action.encode (.attack .left) = "A-L" := rfl
example : Board.encode ⟨[⟨.friendly, ⟨12, 6⟩, 100, some (.attack .up)⟩,
    ⟨.enemy, ⟨10, 12⟩, 90, none⟩, ⟨.friendly, ⟨9, 12⟩, 90, none⟩]⟩ = "12:6-A-U,9:12-D" := by
  rfl
example : Game.encode ⟨⟨[⟨.friendly, ⟨12, 6⟩, 100, some (.attack .up)⟩,
    ⟨.enemy, ⟨10, 12⟩, 90, none⟩, ⟨.friendly, ⟨9, 12⟩, 90, none⟩]⟩, "42", (3, 100), 2⟩ =
    "12:6-A-U,9:12-D#42" := rfl

/-! ### Splitting and joining lemmas -/

theorem string_ext {s t : String} (h : s.data = t.data) : s = t := by
  cases s
  cases t
  exact congrArg String.mk h

theorem splitChars_ne_nil (sep : Char) (cs : List Char) : splitChars sep cs ≠ [] := by
  induction cs with
  | nil => simp [splitChars]
  | cons c cs ih =>
    simp only [splitChars]
    split
    · simp
    · split
      · simp
      · simp

theorem splitChars_not_mem {sep : Char} {cs : List Char} (h : sep ∉ cs) :
    splitChars sep cs = [cs] := by
  induction cs with
  | nil => rfl
  | cons c cs ih =>
    have h1 : sep ∉ cs := fun m => h (List.mem_cons_of_mem _ m)
    have hc : ¬ c = sep := fun e => h (by simp [e])
    simp [splitChars, hc, ih h1]

theorem splitChars_append_sep {sep : Char} {xs : List Char} (h : sep ∉ xs) (ys : List Char) :
    splitChars sep (xs ++ sep :: ys) = xs :: splitChars sep ys := by
  induction xs with
  | nil => simp [splitChars]
  | cons c cs ih =>
    have h1 : sep ∉ cs := fun m => h (List.mem_cons_of_mem _ m)
    have hc : ¬ c = sep := fun e => h (by simp [e])
    simp [splitChars, hc, ih h1]

theorem splitChars_join {sep : Char} : ∀ {l : List (List Char)}, l ≠ [] →
    (∀ e ∈ l, sep ∉ e) → splitChars sep (joinChars sep l) = l
  | [], hne, _ => absurd rfl hne
  | [x], _, h => by
    simpa [joinChars] using splitChars_not_mem (h x (by simp))
  | x :: y :: ys, _, h => by
    have hx : sep ∉ x := h x (by simp)
    have : joinChars sep (x :: y :: ys) = x ++ sep :: joinChars sep (y :: ys) := rfl
    rw [this, splitChars_append_sep hx,
      splitChars_join (by simp) (fun e he => h e (by simp [he]))]

/-! ### Number parsing and rendering lemmas -/

theorem loopVal_cons (v : Nat) (c : Char) (cs : List Char) :
    loopVal v (c :: cs) = loopVal (v * 10 + (digitVal c).getD 0) cs := rfl

theorem le_loopVal (v : Nat) (cs : List Char) : v ≤ loopVal v cs := by
  induction cs generalizing v with
  | nil => exact le_refl v
  | cons c cs ih =>
    rw [loopVal_cons]
    exact le_trans (by omega) (ih (v * 10 + (digitVal c).getD 0))

theorem parseUIntLoop_ok {max : Nat} : ∀ (cs : List Char) (v : Nat),
    (∀ c ∈ cs, (digitVal c).isSome) → loopVal v cs ≤ max →
    parseUIntLoop max v cs = .ok (loopVal v cs)
  | [], v, _, _ => rfl
  | c :: cs, v, hd, hle => by
    obtain ⟨d, hd0⟩ := Option.isSome_iff_exists.mp (hd c (by simp))
    have hcons : loopVal v (c :: cs) = loopVal (v * 10 + d) cs := by
      rw [loopVal_cons, hd0]
      rfl
    have hv : v * 10 + d ≤ max := by
      have h1 := le_loopVal (v * 10 + d) cs
      rw [hcons] at hle
      omega
    rw [parseUIntLoop, hd0]
    simp only [if_pos hv]
    rw [parseUIntLoop_ok cs (v * 10 + d) (fun e he => hd e (by simp [he])) (hcons ▸ hle), hcons]

theorem digitVal_digitChar : ∀ d, d < 10 → digitVal (Nat.digitChar d) = some d := by decide

theorem natToCharsCore_eq : ∀ (fuel : Nat) (n : Nat) (acc : List Char), n ≠ 0 → n < 10 ^ fuel →
    natToCharsCore fuel n acc = ((Nat.digits 10 n).map Nat.digitChar).reverse ++ acc
  | 0, n, acc, h0, hlt => by simp at hlt; omega
  | fuel + 1, n, acc, h0, hlt => by
    rw [natToCharsCore, Nat.digits_def' (b := 10) (by norm_num) (Nat.pos_of_ne_zero h0)]
    by_cases h10 : n / 10 = 0
    · simp [h10]
    · have hlt2 : n / 10 < 10 ^ fuel := by
        have : n < 10 ^ fuel * 10 := by
          calc n < 10 ^ (fuel + 1) := hlt
          _ = 10 ^ fuel * 10 := by rw [pow_succ]
        exact (Nat.div_lt_iff_lt_mul (by norm_num)).mpr this
      simp only [if_neg h10]
      rw [natToCharsCore_eq fuel (n / 10) _ h10 hlt2]
      simp [List.append_assoc]

theorem natToChars_eq_digits {n : Nat} (h0 : n ≠ 0) :
    natToChars n = ((Nat.digits 10 n).map Nat.digitChar).reverse := by
  have hfuel : n < 10 ^ (n + 1) :=
    lt_of_lt_of_le (Nat.lt_pow_self (by norm_num) n)
      (Nat.pow_le_pow_right (by norm_num) (Nat.le_succ n))
  simpa [natToChars] using natToCharsCore_eq (n + 1) n [] h0 hfuel

theorem natToChars_zero : natToChars 0 = ['0'] := rfl

theorem mem_natToChars_isDigit {n : Nat} {c : Char} (hc : c ∈ natToChars n) :
    (digitVal c).isSome := by
  by_cases h0 : n = 0
  · subst h0
    rw [natToChars_zero] at hc
    simp at hc
    subst hc
    decide
  · rw [natToChars_eq_digits h0] at hc
    rw [List.mem_reverse, List.mem_map] at hc
    obtain ⟨d, hd, rfl⟩ := hc
    rw [digitVal_digitChar d (Nat.digits_lt_base (by norm_num) hd)]
    rfl

theorem natToChars_ne_nil (n : Nat) : natToChars n ≠ [] := by
  by_cases h0 : n = 0
  · subst h0
    simp [natToChars_zero]
  · rw [natToChars_eq_digits h0]
    simp [Nat.digits_ne_nil_iff_ne_zero, h0]

theorem not_mem_natToChars {c : Char} (hc : digitVal c = none) (n : Nat) :
    c ∉ natToChars n := by
  intro hmem
  have := mem_natToChars_isDigit hmem
  rw [hc] at this
  simp at this

theorem loopVal_rev_digits : ∀ (ds : List Nat) (v : Nat), (∀ d ∈ ds, d < 10) →
    loopVal v ((ds.map Nat.digitChar).reverse) = v * 10 ^ ds.length + Nat.ofDigits 10 ds
  | [], v, _ => by simp [loopVal, Nat.ofDigits]
  | d :: ds, v, h => by
    have hd : d < 10 := h d (by simp)
    have htail : loopVal v ((ds.map Nat.digitChar).reverse) =
        v * 10 ^ ds.length + Nat.ofDigits 10 ds :=
      loopVal_rev_digits ds v (fun e he => h e (by simp [he]))
    rw [List.map_cons, List.reverse_cons]
    show List.foldl _ v (_ ++ [Nat.digitChar d]) = _
    rw [List.foldl_append]
    show (loopVal v ((ds.map Nat.digitChar).reverse)) * 10 + (digitVal (Nat.digitChar d)).getD 0 = _
    rw [htail, digitVal_digitChar d hd, Nat.ofDigits_cons, List.length_cons, pow_succ]
    show (v * 10 ^ ds.length + Nat.ofDigits 10 ds) * 10 + d = _
    ring

theorem loopVal_natToChars (n : Nat) : loopVal 0 (natToChars n) = n := by
  by_cases h0 : n = 0
  · subst h0
    decide
  · rw [natToChars_eq_digits h0]
    have := loopVal_rev_digits (Nat.digits 10 n) 0
      (fun d hd => Nat.digits_lt_base (by norm_num) hd)
    simpa [Nat.ofDigits_digits] using this

theorem natToString_data (n : Nat) : (natToString n).data = natToChars n := rfl

theorem parseUInt_natToString {max n : Nat} (h : n ≤ max) :
    parseUInt max (natToString n) = .ok n := by
  obtain ⟨c, cs, hcs⟩ : ∃ c cs, natToChars n = c :: cs := by
    cases hh : natToChars n with
    | nil => exact absurd hh (natToChars_ne_nil n)
    | cons c cs => exact ⟨c, cs, rfl⟩
  have hcd : (digitVal c).isSome := mem_natToChars_isDigit (by rw [hcs]; simp)
  have hplus : ¬ c = '+' := by
    intro e
    subst e
    simp [digitVal] at hcd
  have hall : ∀ e ∈ c :: cs, (digitVal e).isSome := by
    rw [← hcs]
    exact fun e he => mem_natToChars_isDigit he
  have hval : loopVal 0 (c :: cs) = n := by rw [← hcs, loopVal_natToChars]
  rw [parseUInt, natToString_data, hcs]
  simp only [if_neg hplus]
  rw [parseUIntLoop_ok (c :: cs) 0 hall (by rw [hval]; exact h), hval]

/-! ### Monad and collect lemmas -/

theorem except_bind_ok {ε α β : Type} (a : α) (k : α → Except ε β) :
    (Except.ok a >>= k : Except ε β) = k a := rfl

theorem except_bind_error {ε α β : Type} (e : ε) (k : α → Except ε β) :
    (Except.error e >>= k : Except ε β) = Except.error e := rfl

theorem except_pure {ε α : Type} (a : α) : (pure a : Except ε α) = Except.ok a := rfl

theorem collectResults_cons_error {α β ε : Type} {f : α → Except ε β} {x : α}
    (xs : List α) {e : ε} (h : f x = .error e) :
    collectResults f (x :: xs) = .error e := by
  rw [collectResults, h, except_bind_error]

theorem collectResults_ok_mem {α β ε : Type} {f : α → Except ε β} : ∀ {xs : List α}
    {ys : List β}, collectResults f xs = .ok ys → ∀ y ∈ ys, ∃ x ∈ xs, f x = .ok y
  | [], ys, h, y, hy => by
    rw [collectResults] at h
    cases h
    simp at hy
  | x :: xs, ys, h, y, hy => by
    rw [collectResults] at h
    cases hfx : f x with
    | error e =>
      rw [hfx, except_bind_error] at h
      cases h
    | ok y0 =>
      rw [hfx, except_bind_ok] at h
      cases hrest : collectResults f xs with
      | error e =>
        rw [hrest, except_bind_error] at h
        cases h
      | ok ys0 =>
        rw [hrest, except_bind_ok] at h
        cases h
        rcases List.mem_cons.mp hy with rfl | hmem
        · exact ⟨x, by simp, hfx⟩
        · obtain ⟨x1, hx1, hfx1⟩ := collectResults_ok_mem hrest y hmem
          exact ⟨x1, by simp [hx1], hfx1⟩

theorem collectResults_ok_length {α β ε : Type} {f : α → Except ε β} : ∀ {xs : List α}
    {ys : List β}, collectResults f xs = .ok ys → ys.length = xs.length
  | [], ys, h => by
    rw [collectResults] at h
    cases h
    rfl
  | x :: xs, ys, h => by
    rw [collectResults] at h
    cases hfx : f x with
    | error e =>
      rw [hfx, except_bind_error] at h
      cases h
    | ok y0 =>
      rw [hfx, except_bind_ok] at h
      cases hrest : collectResults f xs with
      | error e =>
        rw [hrest, except_bind_error] at h
        cases h
      | ok ys0 =>
        rw [hrest, except_bind_ok] at h
        cases h
        simp [collectResults_ok_length hrest]

/-! ### Encoding shape lemmas -/

theorem mk_data (s : String) : String.mk s.data = s := rfl

theorem Position.encode_data (p : Position) :
    (Position.encode p).data = natToChars p.x ++ ':' :: natToChars p.y := by
  show ((natToString p.x ++ ":") ++ natToString p.y).data = _
  rw [String.data_append, String.data_append]
  have hc : (":" : String).data = [':'] := rfl
  rw [natToString_data, natToString_data, hc, List.append_assoc]
  rfl

theorem Bot.entry_data (b : Bot) :
    (Bot.entry b).data = (Position.encode b.position).data ++ '-' :: b.actionString.data := by
  show ((b.position.encode ++ "-") ++ b.actionString).data = _
  rw [String.data_append, String.data_append]
  have hd : ("-" : String).data = ['-'] := rfl
  rw [hd, List.append_assoc]
  rfl

theorem not_mem_position_encode {c : Char} (hdig : digitVal c = none) (hcolon : c ≠ ':')
    (p : Position) : c ∉ (Position.encode p).data := by
  rw [Position.encode_data]
  intro hmem
  rcases List.mem_append.mp hmem with h | h
  · exact not_mem_natToChars hdig _ h
  · rcases List.mem_cons.mp h with h | h
    · exact hcolon h
    · exact not_mem_natToChars hdig _ h

theorem comma_not_mem_action : ∀ a : Action, ',' ∉ (Action.encode a).data := by
  intro a
  cases a with
  | attack d => cases d <;> decide
  | move d => cases d <;> decide
  | defend => decide
  | selfDestruct => decide

theorem comma_not_mem_actionString (b : Bot) : ',' ∉ b.actionString.data := by
  rw [Bot.actionString]
  cases b.action with
  | none => decide
  | some a => exact comma_not_mem_action a

theorem comma_not_mem_entry (b : Bot) : ',' ∉ (Bot.entry b).data := by
  rw [Bot.entry_data]
  intro hmem
  rcases List.mem_append.mp hmem with h | h
  · exact not_mem_position_encode (by decide) (by decide) b.position h
  · rcases List.mem_cons.mp h with h | h
    · cases h
    · exact comma_not_mem_actionString b h

theorem position_encode_ne_singleton (p : Position) (t : String)
    (ht : t.data.length = 1) : Position.encode p ≠ t := by
  intro e
  have hlen := congrArg (fun s => s.data.length) e
  simp only [Position.encode_data, ht, List.length_append, List.length_cons] at hlen
  have hx := List.length_pos.mpr (natToChars_ne_nil p.x)
  have hy := List.length_pos.mpr (natToChars_ne_nil p.y)
  omega

/-- Decoding the `position-action` rendering of any bot fails at the team
marker: the first `-`-separated part is a position, never `"F"` or `"E"`. -/
theorem bot_decode_entry (b : Bot) :
    Bot.decode (Bot.entry b) = .error "Couldn't parse team" := by
  have hsplit : splitChars '-' (Bot.entry b).data =
      (Position.encode b.position).data :: splitChars '-' b.actionString.data := by
    rw [Bot.entry_data]
    exact splitChars_append_sep
      (not_mem_position_encode (by decide) (by decide) b.position) _
  have hget : (split '-' (Bot.entry b)).get? 0 = some (Position.encode b.position) := by
    rw [split, hsplit, List.map_cons, mk_data]
    rfl
  have hteam : teamOf (split '-' (Bot.entry b)) = .error "Couldn't parse team" := by
    rw [teamOf, hget]
    simp only [if_neg (position_encode_ne_singleton b.position "F" rfl),
      if_neg (position_encode_ne_singleton b.position "E" rfl)]
  simp only [Bot.decode]
  rw [hteam, except_bind_error]

theorem board_encode_data (bd : Board) :
    (Board.encode bd).data =
      joinChars ','
        (((bd.bots.filter fun b => b.team == Team.friendly).map Bot.entry).map String.data) :=
  rfl

theorem split_board_encode {bd : Board}
    (hne : bd.bots.filter (fun b => b.team == Team.friendly) ≠ []) :
    split ',' (Board.encode bd) =
      (bd.bots.filter (fun b => b.team == Team.friendly)).map Bot.entry := by
  rw [split, board_encode_data, splitChars_join]
  · rw [List.map_map]
    have : (String.mk ∘ String.data) = id := funext fun s => mk_data s
    rw [this, List.map_id]
  · simpa using hne
  · intro e he
    rw [List.map_map, List.mem_map] at he
    obtain ⟨b, _, rfl⟩ := he
    exact comma_not_mem_entry b

theorem except_bind_eq_ok {ε α β : Type} {x : Except ε α} {k : α → Except ε β} {b : β}
    (h : (x >>= k) = .ok b) : ∃ a, x = .ok a ∧ k a = .ok b := by
  cases x with
  | error e =>
    rw [except_bind_error] at h
    cases h
  | ok a =>
    rw [except_bind_ok] at h
    exact ⟨a, rfl, h⟩

theorem append_colon_data (x y : String) :
    (x ++ ":" ++ y).data = x.data ++ ':' :: y.data := by
  rw [String.data_append, String.data_append]
  have hc : (":" : String).data = [':'] := rfl
  rw [hc, List.append_assoc]
  rfl

theorem append_dash_data (x y : String) :
    (x ++ "-" ++ y).data = x.data ++ '-' :: y.data := by
  rw [String.data_append, String.data_append]
  have hc : ("-" : String).data = ['-'] := rfl
  rw [hc, List.append_assoc]
  rfl

theorem append_hash_data (x y : String) :
    (x ++ "#" ++ y).data = x.data ++ '#' :: y.data := by
  rw [String.data_append, String.data_append]
  have hc : ("#" : String).data = ['#'] := rfl
  rw [hc, List.append_assoc]
  rfl

/-! ### Claim theorems -/

/-- Claim C1: for every `Board`, the encoded string is built from exactly
the bots with `team == Friendly`, in their original relative order, each
rendered as `encode(position) ++ "-" ++ encode(action)` with an unset
action defaulting to `Defend`, joined with `","`; and if the board has no
friendly bots the result is the empty string. -/
theorem claim1_board_encode_friendly_projection (bd : Board) :
    Board.encode bd =
      joinSep ',' ((bd.bots.filter fun b => b.team == Team.friendly).map
        (fun b => b.position.encode ++ "-" ++ Action.encode (b.action.getD Action.default))) ∧
    (bd.bots.filter (fun b => b.team == Team.friendly) = [] → Board.encode bd = "") := by
  have hfun : Bot.entry =
      fun b : Bot => b.position.encode ++ "-" ++ Action.encode (b.action.getD Action.default) := by
    funext b
    rw [Bot.entry, Bot.actionString]
    cases b.action <;> rfl
  constructor
  · rw [Board.encode, hfun]
  · intro h
    rw [Board.encode, h]
    rfl

/-- Witness for C1 at a concrete board with no friendly bots. -/
theorem claim1_witness :
    Board.encode ⟨[⟨Team.enemy, ⟨1, 2⟩, 5, none⟩]⟩ = "" :=
  (claim1_board_encode_friendly_projection ⟨[⟨Team.enemy, ⟨1, 2⟩, 5, none⟩]⟩).2 rfl

/-- Claim C4: direction decoding accepts the documented synonyms
(`U`/`N`, `D`/`S`, `L`/`W`, `R`/`E`) and fails with an unknown-direction
error carrying the token on every other token; direction encoding always
emits exactly the canonical letter. -/
theorem claim4_direction_synonyms :
    Direction.decode "U" = .ok .up ∧ Direction.decode "N" = .ok .up ∧
    Direction.decode "D" = .ok .down ∧ Direction.decode "S" = .ok .down ∧
    Direction.decode "L" = .ok .left ∧ Direction.decode "W" = .ok .left ∧
    Direction.decode "R" = .ok .right ∧ Direction.decode "E" = .ok .right ∧
    (∀ t : String, t ∉ (["U", "N", "D", "S", "L", "W", "R", "E"] : List String) →
      Direction.decode t = .error ("Unknown direction: " ++ t)) ∧
    (∀ d : Direction, Direction.encode d ∈ (["U", "D", "L", "R"] : List String)) ∧
    Direction.encode .up = "U" ∧ Direction.encode .down = "D" ∧
    Direction.encode .left = "L" ∧ Direction.encode .right = "R" := by
  refine ⟨rfl, rfl, rfl, rfl, rfl, rfl, rfl, rfl, ?_, ?_, rfl, rfl, rfl, rfl⟩
  · intro t ht
    simp only [List.mem_cons, List.not_mem_nil, or_false] at ht
    push_neg at ht
    obtain ⟨h1, h2, h3, h4, h5, h6, h7, h8⟩ := ht
    rw [Direction.decode, if_neg (by tauto), if_neg (by tauto), if_neg (by tauto),
      if_neg (by tauto)]
  · intro d
    cases d <;> simp [Direction.encode]

/-- Witness for C4 at the concrete unknown token `"Q"`. -/
theorem claim4_witness : Direction.decode "Q" = .error ("Unknown direction: " ++ "Q") :=
  claim4_direction_synonyms.2.2.2.2.2.2.2.2.1 "Q" (by decide)

/-- Claim C6: for every token `"x:y"` built from non-negative integers
`x`, `y` (in `usize` range), `Position::decode` succeeds with `(x, y)` and
re-encoding yields the original token. -/
theorem claim6_position_roundtrip (x y : Nat) (hx : x ≤ usizeMax) (hy : y ≤ usizeMax) :
    Position.decode (natToString x ++ ":" ++ natToString y) = .ok ⟨x, y⟩ ∧
    Position.encode ⟨x, y⟩ = natToString x ++ ":" ++ natToString y := by
  constructor
  · have hdata : (natToString x ++ ":" ++ natToString y).data =
        natToChars x ++ ':' :: natToChars y := by
      rw [append_colon_data, natToString_data, natToString_data]
    have hsplit : split ':' (natToString x ++ ":" ++ natToString y) =
        [natToString x, natToString y] := by
      rw [split, hdata, splitChars_append_sep (not_mem_natToChars (by decide) x),
        splitChars_not_mem (not_mem_natToChars (by decide) y)]
      rfl
    simp only [Position.decode, hsplit, List.get?]
    rw [parseUInt_natToString hx, parseUInt_natToString hy]
  · rfl

/-- Witness for C6 at the concrete position `(12, 6)`. -/
theorem claim6_witness :
    Position.decode (natToString 12 ++ ":" ++ natToString 6) = .ok ⟨12, 6⟩ ∧
    Position.encode ⟨12, 6⟩ = natToString 12 ++ ":" ++ natToString 6 :=
  claim6_position_roundtrip 12 6 (by decide) (by decide)

/-- Claim C8: decoding never populates actions: a successfully decoded
`Bot` has `action = none`, and every bot of a successfully decoded `Board`
or `Game` has `action = none`. -/
theorem claim8_decode_action_none :
    (∀ (s : String) (b : Bot), Bot.decode s = .ok b → b.action = none) ∧
    (∀ (s : String) (bd : Board), Board.decode s = .ok bd → ∀ b ∈ bd.bots, b.action = none) ∧
    (∀ (s : String) (g : Game), Game.decode s = .ok g → ∀ b ∈ g.board.bots, b.action = none) := by
  have hbot : ∀ (s : String) (b : Bot), Bot.decode s = .ok b → b.action = none := by
    intro s b h
    simp only [Bot.decode] at h
    obtain ⟨team, -, h⟩ := except_bind_eq_ok h
    obtain ⟨pos, -, h⟩ := except_bind_eq_ok h
    obtain ⟨health, -, h⟩ := except_bind_eq_ok h
    cases h
    rfl
  have hboard : ∀ (s : String) (bd : Board), Board.decode s = .ok bd →
      ∀ b ∈ bd.bots, b.action = none := by
    intro s bd h b hb
    simp only [Board.decode] at h
    obtain ⟨bots, hbots, h⟩ := except_bind_eq_ok h
    cases h
    obtain ⟨tok, -, htok⟩ := collectResults_ok_mem hbots b hb
    exact hbot tok b htok
  refine ⟨hbot, hboard, ?_⟩
  intro s g h
  simp only [Game.decode] at h
  obtain ⟨gmu, -, h⟩ := except_bind_eq_ok h
  obtain ⟨num, -, h⟩ := except_bind_eq_ok h
  obtain ⟨denom, -, h⟩ := except_bind_eq_ok h
  obtain ⟨playerNum, -, h⟩ := except_bind_eq_ok h
  obtain ⟨board, hb, h⟩ := except_bind_eq_ok h
  cases h
  exact hboard gmu.2.1 board hb

/-- Witness for C8 at the concrete token `"F-1:2-3"`. -/
theorem claim8_witness : (Bot.mk Team.friendly ⟨1, 2⟩ 3 none).action = none :=
  claim8_decode_action_none.1 "F-1:2-3" (Bot.mk Team.friendly ⟨1, 2⟩ 3 none) rfl

/-- Claim C10: for a friendly bot, `Board::encode` produces the same
output whether its action is `none` or `some Defend`: two boards that
differ only in this way encode to equal strings. -/
theorem claim10_default_invisible (pre post : List Bot) (b : Bot)
    (hteam : b.team = Team.friendly) (hact : b.action = none) :
    Board.encode ⟨pre ++ b :: post⟩ =
      Board.encode ⟨pre ++ { b with action := some Action.defend } :: post⟩ := by
  have hentry : Bot.entry b = Bot.entry { b with action := some Action.defend } := by
    rw [Bot.entry, Bot.entry, Bot.actionString, Bot.actionString, hact]
    rfl
  have pb : (b.team == Team.friendly) = true := by
    rw [hteam]
    rfl
  have pb2 : (({ b with action := some Action.defend } : Bot).team == Team.friendly) = true := pb
  rw [Board.encode, Board.encode]
  simp only [List.filter_append, List.filter_cons, pb, pb2, if_pos, List.map_append,
    List.map_cons]
  rw [hentry]

/-- Witness for C10 at a concrete one-bot board. -/
theorem claim10_witness :
    Board.encode ⟨[] ++ Bot.mk Team.friendly ⟨1, 2⟩ 5 none :: []⟩ =
      Board.encode ⟨[] ++ { Bot.mk Team.friendly ⟨1, 2⟩ 5 none with
        action := some Action.defend } :: []⟩ :=
  claim10_default_invisible [] [] (Bot.mk Team.friendly ⟨1, 2⟩ 5 none) rfl rfl

/-- Claim C5: for every board containing only friendly bots, each with an
explicitly assigned action, decoding the encoded board fails (the encode
format drops team markers and health, so the first token already fails at
the team marker), rather than reproducing the board. -/
theorem claim5_roundtrip_asymmetry (bd : Board)
    (hf : ∀ b ∈ bd.bots, b.team = Team.friendly)
    (_ha : ∀ b ∈ bd.bots, b.action.isSome) :
    (∃ e, Board.decode (Board.encode bd) = .error e) ∧
    ∀ bd2 : Board, Board.decode (Board.encode bd) ≠ .ok bd2 := by
  have key : Board.decode (Board.encode bd) = .error "Couldn't parse team" := by
    cases hbots : bd.bots with
    | nil =>
      have henc : Board.encode bd = "" := by
        rw [Board.encode, hbots]
        rfl
      rw [henc]
      rfl
    | cons b rest =>
      have hfilter : bd.bots.filter (fun x => x.team == Team.friendly) = bd.bots :=
        List.filter_eq_self.mpr fun a haa => by
          rw [hf a haa]
          rfl
      have hne : bd.bots.filter (fun x => x.team == Team.friendly) ≠ [] := by
        rw [hfilter, hbots]
        simp
      simp only [Board.decode]
      rw [split_board_encode hne, hfilter, hbots, List.map_cons,
        collectResults_cons_error _ (bot_decode_entry b), except_bind_error]
  refine ⟨⟨_, key⟩, fun bd2 hc => ?_⟩
  rw [key] at hc
  cases hc

/-- Witness for C5 at a concrete all-friendly board with assigned actions. -/
theorem claim5_witness :
    (∃ e, Board.decode (Board.encode ⟨[⟨Team.friendly, ⟨1, 2⟩, 5, some Action.defend⟩]⟩) =
      .error e) ∧
    ∀ bd2 : Board,
      Board.decode (Board.encode ⟨[⟨Team.friendly, ⟨1, 2⟩, 5, some Action.defend⟩]⟩) ≠
        .ok bd2 :=
  claim5_roundtrip_asymmetry ⟨[⟨Team.friendly, ⟨1, 2⟩, 5, some Action.defend⟩]⟩
    (by decide) (by decide)

/-- Claim C2 is refuted at the concrete token `"1:2:3"`: its split on `:`
has three parts, yet `Position::decode` succeeds with `(1, 2)` instead of
failing. -/
theorem claim2_counterexample :
    Position.decode "1:2:3" = .ok ⟨1, 2⟩ ∧ ∀ e, Position.decode "1:2:3" ≠ .error e := by
  refine ⟨rfl, fun e h => ?_⟩
  rw [show Position.decode "1:2:3" = Except.ok ⟨1, 2⟩ from rfl] at h
  cases h

/-- Claim C2 (amended): `Position::decode` uses only the first two
`:`-separated parts and silently ignores any further parts; a token with
no second part fails with the missing-position error, and a token either
of whose first two parts does not parse as a `usize` fails. -/
theorem claim2_amended_position_parts :
    (∀ (x y : String) (rest : List String), ':' ∉ x.data → ':' ∉ y.data →
      Position.decode (joinSep ':' (x :: y :: rest)) = Position.decode (x ++ ":" ++ y)) ∧
    (∀ s : String, (split ':' s).get? 1 = none →
      Position.decode s = .error "Missing a position") ∧
    (∀ x y : String, ':' ∉ x.data → ':' ∉ y.data →
      ((∀ n, parseUInt usizeMax x ≠ .ok n) ∨ (∀ n, parseUInt usizeMax y ≠ .ok n)) →
      ∃ e, Position.decode (x ++ ":" ++ y) = .error e) := by
  have hxy : ∀ x y : String, ':' ∉ x.data → ':' ∉ y.data →
      split ':' (x ++ ":" ++ y) = [x, y] := by
    intro x y hx hy
    rw [split, append_colon_data, splitChars_append_sep hx, splitChars_not_mem hy,
      List.map_cons, List.map_cons, List.map_nil, mk_data, mk_data]
  refine ⟨?_, ?_, ?_⟩
  · intro x y rest hx hy
    obtain ⟨tail, htail⟩ : ∃ tail, split ':' (joinSep ':' (x :: y :: rest)) =
        x :: y :: tail := by
      cases rest with
      | nil =>
        refine ⟨[], ?_⟩
        have hj : joinSep ':' [x, y] = x ++ ":" ++ y := by
          apply string_ext
          rw [append_colon_data]
          rfl
        rw [hj, hxy x y hx hy]
      | cons r rs =>
        have hdata : (joinSep ':' (x :: y :: r :: rs)).data =
            x.data ++ ':' :: (y.data ++ ':' :: (joinSep ':' (r :: rs)).data) := rfl
        refine ⟨(splitChars ':' (joinSep ':' (r :: rs)).data).map String.mk, ?_⟩
        rw [split, hdata, splitChars_append_sep hx, splitChars_append_sep hy,
          List.map_cons, List.map_cons, mk_data, mk_data]
    simp only [Position.decode, htail, hxy x y hx hy, List.get?_cons_zero,
      List.get?_cons_succ]
  · intro s h1
    simp only [Position.decode]
    cases h0 : (split ':' s).get? 0 with
    | none => rw [h1]
    | some xx => rw [h1]
  · intro x y hx hy hfail
    simp only [Position.decode, hxy x y hx hy, List.get?_cons_zero, List.get?_cons_succ]
    cases hpx : parseUInt usizeMax x with
    | error e =>
      cases hpy : parseUInt usizeMax y with
      | error e2 => exact ⟨_, rfl⟩
      | ok m => exact ⟨_, rfl⟩
    | ok n =>
      cases hpy : parseUInt usizeMax y with
      | error e2 => exact ⟨_, rfl⟩
      | ok m =>
        rcases hfail with hfx | hfy
        · exact absurd hpx (hfx n)
        · exact absurd hpy (hfy m)

/-- Witness for the amended C2 at the concrete tokens `"7"` (missing
second part) and `"a:2"` (non-numeric first part). -/
theorem claim2_witness :
    Position.decode "7" = .error "Missing a position" ∧
    ∃ e, Position.decode ("a" ++ ":" ++ "2") = .error e :=
  ⟨claim2_amended_position_parts.2.1 "7" rfl,
    claim2_amended_position_parts.2.2 "a" "2" (by decide) (by decide)
      (Or.inl fun n h => by rw [show parseUInt usizeMax "a" =
        Except.error "invalid digit found in string" from rfl] at h; cases h)⟩

/-- Claim C3 is refuted at the concrete token `"F-1:2-3-extra"`: its split
on `-` has four parts, yet `Bot::decode` succeeds, silently ignoring the
extra part, instead of failing. -/
theorem claim3_counterexample :
    Bot.decode "F-1:2-3-extra" = .ok ⟨.friendly, ⟨1, 2⟩, 3, none⟩ ∧
    ∀ e, Bot.decode "F-1:2-3-extra" ≠ .error e := by
  refine ⟨rfl, fun e h => ?_⟩
  rw [show Bot.decode "F-1:2-3-extra" =
    Except.ok ⟨Team.friendly, ⟨1, 2⟩, 3, none⟩ from rfl] at h
  cases h

/-- Claim C3 (amended): `Bot::decode` uses only the first three
`-`-separated parts and silently ignores any further parts; a token whose
split on `-` has fewer than three parts fails (with the field-specific
team/position/health errors rather than a single malformed-bot error). -/
theorem claim3_amended_bot_parts :
    (∀ (t p h : String) (rest : List String), '-' ∉ t.data → '-' ∉ p.data → '-' ∉ h.data →
      Bot.decode (joinSep '-' (t :: p :: h :: rest)) = Bot.decode (t ++ "-" ++ p ++ "-" ++ h)) ∧
    (∀ s : String, (split '-' s).length < 3 → ∃ e, Bot.decode s = .error e) := by
  constructor
  · intro t p h rest ht hp hh
    have hrhs : split '-' (t ++ "-" ++ p ++ "-" ++ h) = [t, p, h] := by
      have hdata : (t ++ "-" ++ p ++ "-" ++ h).data =
          t.data ++ '-' :: (p.data ++ '-' :: h.data) := by
        rw [append_dash_data, append_dash_data, List.append_assoc]
        rfl
      rw [split, hdata, splitChars_append_sep ht, splitChars_append_sep hp,
        splitChars_not_mem hh, List.map_cons, List.map_cons, List.map_cons, List.map_nil,
        mk_data, mk_data, mk_data]
    obtain ⟨tail, htail⟩ : ∃ tail, split '-' (joinSep '-' (t :: p :: h :: rest)) =
        t :: p :: h :: tail := by
      cases rest with
      | nil =>
        refine ⟨[], ?_⟩
        have hdata : (joinSep '-' [t, p, h]).data =
            t.data ++ '-' :: (p.data ++ '-' :: h.data) := rfl
        rw [split, hdata, splitChars_append_sep ht, splitChars_append_sep hp,
          splitChars_not_mem hh, List.map_cons, List.map_cons, List.map_cons, List.map_nil,
          mk_data, mk_data, mk_data]
      | cons r rs =>
        have hdata : (joinSep '-' (t :: p :: h :: r :: rs)).data =
            t.data ++ '-' :: (p.data ++ '-' :: (h.data ++ '-' ::
              (joinSep '-' (r :: rs)).data)) := rfl
        refine ⟨(splitChars '-' (joinSep '-' (r :: rs)).data).map String.mk, ?_⟩
        rw [split, hdata, splitChars_append_sep ht, splitChars_append_sep hp,
          splitChars_append_sep hh, List.map_cons, List.map_cons, List.map_cons,
          mk_data, mk_data, mk_data]
    have e0 : teamOf (split '-' (joinSep '-' (t :: p :: h :: rest))) =
        teamOf (split '-' (t ++ "-" ++ p ++ "-" ++ h)) := by
      simp only [teamOf, htail, hrhs, List.get?_cons_zero, List.get?_cons_succ]
    have e1 : positionOf (split '-' (joinSep '-' (t :: p :: h :: rest))) =
        positionOf (split '-' (t ++ "-" ++ p ++ "-" ++ h)) := by
      simp only [positionOf, htail, hrhs, List.get?_cons_zero, List.get?_cons_succ]
    have e2 : healthOf (split '-' (joinSep '-' (t :: p :: h :: rest))) =
        healthOf (split '-' (t ++ "-" ++ p ++ "-" ++ h)) := by
      simp only [healthOf, htail, hrhs, List.get?_cons_zero, List.get?_cons_succ]
    simp only [Bot.decode, e0, e1, e2]
  · intro s hlen
    have h2 : (split '-' s).get? 2 = none := List.get?_eq_none.mpr (by omega)
    simp only [Bot.decode]
    cases ht : teamOf (split '-' s) with
    | error e => exact ⟨e, rfl⟩
    | ok team =>
      cases hp : positionOf (split '-' s) with
      | error e => exact ⟨e, rfl⟩
      | ok pos =>
        have hh : healthOf (split '-' s) = .error "No health" := by
          rw [healthOf, h2]
        exact ⟨"No health", by rw [hh]; rfl⟩

/-- Witness for the amended C3: ignoring a fourth part equals decoding the
three-part token, and a two-part token fails. -/
theorem claim3_witness :
    Bot.decode (joinSep '-' ["F", "1:2", "3", "extra"]) =
      Bot.decode ("F" ++ "-" ++ "1:2" ++ "-" ++ "3") ∧
    ∃ e, Bot.decode "F-1:2" = .error e :=
  ⟨claim3_amended_bot_parts.1 "F" "1:2" "3" ["extra"] (by decide) (by decide) (by decide),
    claim3_amended_bot_parts.2 "F-1:2" (by decide)⟩

theorem gameSegments_ok {s : String} {parts : List String} {gmu : String × String × String}
    (h : gameSegments s parts = .ok gmu) :
    parts.get? 0 = some gmu.1 ∧ parts.get? 1 = some gmu.2.1 ∧ parts.get? 2 = some gmu.2.2 := by
  rw [gameSegments] at h
  rcases h0 : parts.get? 0 with _ | g <;> rw [h0] at h
  · rcases h1 : parts.get? 1 with _ | m <;> rw [h1] at h <;>
      rcases h2 : parts.get? 2 with _ | u <;> rw [h2] at h <;> cases h
  · rcases h1 : parts.get? 1 with _ | m <;> rw [h1] at h
    · rcases h2 : parts.get? 2 with _ | u <;> rw [h2] at h <;> cases h
    · rcases h2 : parts.get? 2 with _ | u <;> rw [h2] at h
      · cases h
      · cases h
        exact ⟨rfl, rfl, rfl⟩

/-- Claim C7: `Game::decode` uses only the first three `#`-delimited
segments; segments beyond the third are silently discarded without error,
and a line with fewer than three segments fails with the whole-line
parse error. -/
theorem claim7_game_segments :
    (∀ (g m u : String) (rest : List String), '#' ∉ g.data → '#' ∉ m.data → '#' ∉ u.data →
      Game.decode (joinSep '#' (g :: m :: u :: rest)) =
        Game.decode (g ++ "#" ++ m ++ "#" ++ u)) ∧
    (∀ s : String, (split '#' s).length < 3 →
      Game.decode s = .error ("Couldn't parse input: " ++ s)) := by
  constructor
  · intro g m u rest hg hm hu
    have hrhs : split '#' (g ++ "#" ++ m ++ "#" ++ u) = [g, m, u] := by
      have hdata : (g ++ "#" ++ m ++ "#" ++ u).data =
          g.data ++ '#' :: (m.data ++ '#' :: u.data) := by
        rw [append_hash_data, append_hash_data, List.append_assoc]
        rfl
      rw [split, hdata, splitChars_append_sep hg, splitChars_append_sep hm,
        splitChars_not_mem hu, List.map_cons, List.map_cons, List.map_cons, List.map_nil,
        mk_data, mk_data, mk_data]
    obtain ⟨tail, htail⟩ : ∃ tail, split '#' (joinSep '#' (g :: m :: u :: rest)) =
        g :: m :: u :: tail := by
      cases rest with
      | nil =>
        refine ⟨[], ?_⟩
        have hdata : (joinSep '#' [g, m, u]).data =
            g.data ++ '#' :: (m.data ++ '#' :: u.data) := rfl
        rw [split, hdata, splitChars_append_sep hg, splitChars_append_sep hm,
          splitChars_not_mem hu, List.map_cons, List.map_cons, List.map_cons, List.map_nil,
          mk_data, mk_data, mk_data]
      | cons r rs =>
        have hdata : (joinSep '#' (g :: m :: u :: r :: rs)).data =
            g.data ++ '#' :: (m.data ++ '#' :: (u.data ++ '#' ::
              (joinSep '#' (r :: rs)).data)) := rfl
        refine ⟨(splitChars '#' (joinSep '#' (r :: rs)).data).map String.mk, ?_⟩
        rw [split, hdata, splitChars_append_sep hg, splitChars_append_sep hm,
          splitChars_append_sep hu, List.map_cons, List.map_cons, List.map_cons,
          mk_data, mk_data, mk_data]
    have hseg : gameSegments (joinSep '#' (g :: m :: u :: rest))
        (split '#' (joinSep '#' (g :: m :: u :: rest))) = .ok (g, m, u) := by
      simp only [gameSegments, htail, List.get?_cons_zero, List.get?_cons_succ]
    have hseg2 : gameSegments (g ++ "#" ++ m ++ "#" ++ u)
        (split '#' (g ++ "#" ++ m ++ "#" ++ u)) = .ok (g, m, u) := by
      simp only [gameSegments, hrhs, List.get?_cons_zero, List.get?_cons_succ]
    simp only [Game.decode, hseg, hseg2, except_bind_ok]
  · intro s hlen
    have h2 : (split '#' s).get? 2 = none := List.get?_eq_none.mpr (by omega)
    have hseg : gameSegments s (split '#' s) =
        .error ("Couldn't parse input: " ++ s) := by
      rw [gameSegments]
      cases h0 : (split '#' s).get? 0 <;> cases h1 : (split '#' s).get? 1 <;> rw [h2]
    simp only [Game.decode, hseg, except_bind_error]

/-- Witness for C7: a fourth segment is discarded, and a two-segment line
fails with the whole-line error. -/
theorem claim7_witness :
    Game.decode (joinSep '#' ["1,2,3", "F-1:2-5", "data", "extra"]) =
      Game.decode ("1,2,3" ++ "#" ++ "F-1:2-5" ++ "#" ++ "data") ∧
    Game.decode "1,2" = .error ("Couldn't parse input: " ++ "1,2") :=
  ⟨claim7_game_segments.1 "1,2,3" "F-1:2-5" "data" ["extra"]
      (by decide) (by decide) (by decide),
    claim7_game_segments.2 "1,2" (by decide)⟩

/-- Claim C9: decoding the empty string as a board fails at the team
marker; a game line whose middle `#`-segment is empty is rejected; a
successfully decoded board is never empty; yet encoding a board with no
friendly bots produces the empty string. -/
theorem claim9_empty_board :
    Board.decode "" = .error "Couldn't parse team" ∧
    (∀ s : String, (split '#' s).get? 1 = some "" → ∃ e, Game.decode s = .error e) ∧
    (∀ (s : String) (bd : Board), Board.decode s = .ok bd → bd.bots ≠ []) ∧
    (∀ bd : Board, bd.bots.filter (fun b => b.team == Team.friendly) = [] →
      Board.encode bd = "") := by
  refine ⟨rfl, ?_, ?_, ?_⟩
  · intro s h1
    simp only [Game.decode]
    cases hseg : gameSegments s (split '#' s) with
    | error e => exact ⟨e, rfl⟩
    | ok gmu =>
      obtain ⟨-, hm, -⟩ := gameSegments_ok hseg
      rw [h1] at hm
      injection hm with hm
      simp only [except_bind_ok]
      cases hn0 : numAt (split ',' gmu.1) 0 u32Max "No numerator" with
      | error e => exact ⟨e, rfl⟩
      | ok n0 =>
        cases hn1 : numAt (split ',' gmu.1) 1 u32Max "No denominator" with
        | error e => exact ⟨e, rfl⟩
        | ok n1 =>
          cases hn2 : numAt (split ',' gmu.1) 2 u8Max "No player num" with
          | error e => exact ⟨e, rfl⟩
          | ok n2 => exact ⟨"Couldn't parse team", by rw [← hm]; rfl⟩
  · intro s bd h
    simp only [Board.decode] at h
    obtain ⟨bots, hbots, h⟩ := except_bind_eq_ok h
    cases h
    intro hnil
    have hlen := collectResults_ok_length hbots
    have hpos : 0 < (split ',' s).length := by
      rw [split, List.length_map]
      exact List.length_pos.mpr (splitChars_ne_nil ',' s.data)
    have hnil2 : bots = [] := hnil
    rw [hnil2] at hlen
    simp at hlen
    omega
  · intro bd hf
    rw [Board.encode, hf]
    rfl

/-- Witness for C9: a concrete empty-middle-segment line is rejected, and a
concrete decoded board is nonempty. -/
theorem claim9_witness :
    (∃ e, Game.decode "1,2,3##x" = .error e) ∧
    (Board.mk [⟨Team.friendly, ⟨1, 2⟩, 5, none⟩]).bots ≠ [] :=
  ⟨claim9_empty_board.2.1 "1,2,3##x" rfl,
    claim9_empty_board.2.2.1 "F-1:2-5" ⟨[⟨Team.friendly, ⟨1, 2⟩, 5, none⟩]⟩ rfl⟩

end RustyBolts
